import Mathlib

/- Verification of the string-to-argv tokenizer in ser2net's utils.c
   (gettok, str_to_argv and their helpers).  Bytes are modelled as
   natural numbers below 256; a C string is modelled as the list of its
   bytes before the terminating NUL.  The char variable cval is modelled
   as its byte value, with each store reducing the intermediate int value
   modulo 256 (two's-complement narrowing). -/

namespace Ser2net

/-- Provenance of a byte written to the token output: copied verbatim
outside any quote, copied verbatim inside a quote region, or produced by
backslash-escape processing (a named escape, or a flush of the
octal/hex accumulator). -/
inductive Prov where
  | verbatim
  | quoted
  | escaped
deriving DecidableEq

/-- C isdigit in the default locale. -/
def isdigit (c : Nat) : Bool := 48 ≤ c && c ≤ 57

/-- isodigit from utils.c: isdigit(c) && c != 8 && c != 9 as characters. -/
def isodigit (c : Nat) : Bool := isdigit c && c != 56 && c != 57

/-- C isxdigit in the default locale: 0-9, A-F, a-f. -/
def isxdigit (c : Nat) : Bool := isdigit c || (65 ≤ c && c ≤ 70) || (97 ≤ c && c ≤ 102)

/-- C isupper in the default locale: A-Z. -/
def isupper (c : Nat) : Bool := 65 ≤ c && c ≤ 90

/-- is_sep_space from utils.c: c && strchr(seps, c). -/
def is_sep_space (c : Nat) (seps : List Nat) : Bool := c != 0 && seps.contains c

/-- skip_spaces from utils.c: advance over leading separator characters. -/
def skip_spaces (s seps : List Nat) : List Nat :=
  match s with
  | [] => []
  | c :: rest => if is_sep_space c seps then skip_spaces rest seps else c :: rest

/-- The switch of gettok's escape == 1 branch for a character that is
neither an octal digit nor x: a → 7, b → 8, f → 12, n → 10, r → 13,
t → 9, v → 11, any other character maps to itself. -/
def escval (c : Nat) : Nat :=
  if c = 97 then 7
  else if c = 98 then 8
  else if c = 102 then 12
  else if c = 110 then 10
  else if c = 114 then 13
  else if c = 116 then 9
  else if c = 118 then 11
  else c

/-- One digit-accumulation step of gettok (escape >= 2): the code computes
cval * base + *p - '0' (octal digits 0-7), cval * base + *p - 'A'
(uppercase), or cval * base + *p - 'a' (everything else, including the
hex digits 8 and 9), as an int, and stores it back into the char cval;
the store is modelled by reducing modulo 256. -/
def accum (base cval c : Nat) : Nat :=
  (if isodigit c then ((cval : Int) * base + c - 48) % 256
   else if isupper c then ((cval : Int) * base + c - 65) % 256
   else ((cval : Int) * base + c - 97) % 256).toNat

/-- Outcome of gettok's process_char block for one character. -/
inductive PC where
  | setQuote (q : Nat)
  | startEscape
  | sepBreak
  | emit (tag : Prov)
deriving DecidableEq

/-- The process_char label of gettok: close the current quote, open a
quote, start an escape, break at an unquoted separator, or copy the
character to the output (tagged with the quoting context). -/
def process_char (seps : List Nat) (c iq : Nat) : PC :=
  if c = iq then .setQuote 0
  else if iq = 0 ∧ (c = 39 ∨ c = 34) then .setQuote c
  else if c = 92 then .startEscape
  else if iq = 0 ∧ is_sep_space c seps = true then .sepBreak
  else .emit (if iq = 0 then .verbatim else .quoted)

/-- State when gettok's scan loop exits: the bytes written through the
output cursor o (with provenance), the rest of the buffer (*s = p after
the loop), and the final values of inquote, escape, base and cval. -/
structure LoopOut where
  out : List (Nat × Prov)
  rest : List Nat
  inquote : Nat
  escape : Nat
  base : Nat
  cval : Nat
deriving DecidableEq

/-- The for (; *p; p++) scan loop of gettok.  escape = 0 is normal
processing, escape = 1 means a backslash was just seen, escape >= 2 means
octal/hex digits are being collected (base 8: escape - 1 digits seen so
far, base 16: escape - 2 digits seen so far).  A 0 byte in the list is a
NUL and stops the loop exactly as in C. -/
def gettok_loop (seps : List Nat) : List Nat → Nat → Nat → Nat → Nat →
    List (Nat × Prov) → LoopOut
  | [], iq, e, b, cv, out => ⟨out, [], iq, e, b, cv⟩
  | c :: rest, iq, e, b, cv, out =>
    if c = 0 then ⟨out, c :: rest, iq, e, b, cv⟩
    else if e = 1 then
      (if isodigit c = true then gettok_loop seps rest iq 2 8 (c - 48) out
       else if c = 120 then gettok_loop seps rest iq 2 16 0 out
       else gettok_loop seps rest iq 0 b 0 (out ++ [(escval c, Prov.escaped)]))
    else if 2 ≤ e then
      (if (b = 16 ∧ isxdigit c = true) ∨ isodigit c = true then
         (if 3 ≤ e then
            gettok_loop seps rest iq 0 b (accum b cv c)
              (out ++ [(accum b cv c, Prov.escaped)])
          else gettok_loop seps rest iq (e + 1) b (accum b cv c) out)
       else
         (match process_char seps c iq with
          | .setQuote q => gettok_loop seps rest q 0 b cv (out ++ [(cv, Prov.escaped)])
          | .startEscape => gettok_loop seps rest iq 1 b cv (out ++ [(cv, Prov.escaped)])
          | .sepBreak => ⟨out ++ [(cv, Prov.escaped)], rest, iq, 0, b, cv⟩
          | .emit tag =>
              gettok_loop seps rest iq 0 b cv (out ++ [(cv, Prov.escaped), (c, tag)])))
    else
      (match process_char seps c iq with
       | .setQuote q => gettok_loop seps rest q 0 b cv out
       | .startEscape => gettok_loop seps rest iq 1 b cv out
       | .sepBreak => ⟨out, rest, iq, 0, b, cv⟩
       | .emit tag => gettok_loop seps rest iq 0 b cv (out ++ [(c, tag)]))

/-- Result of one gettok call: no further token (end of input), a token
with the rest of the buffer, or the malformed-input failure (return -1,
*tok left unset). -/
inductive GRes where
  | noTok (rest : List Nat)
  | tok (out : List (Nat × Prov)) (rest : List Nat)
  | err
deriving DecidableEq

/-- gettok from utils.c: skip separators, stop if the buffer is
exhausted, otherwise run the scan loop, apply the post-loop flush
((base == 8 && escape > 1) || (base == 16 && escape > 2)), and fail
exactly when inquote or escape is still set afterwards. -/
def gettokT (seps s : List Nat) : GRes :=
  match skip_spaces s seps with
  | [] => .noTok []
  | c :: t2 =>
    if c = 0 then .noTok (c :: t2)
    else
      let fin := gettok_loop seps (c :: t2) 0 0 8 0 []
      if (fin.base = 8 ∧ 1 < fin.escape) ∨ (fin.base = 16 ∧ 2 < fin.escape) then
        (if fin.inquote ≠ 0 then .err
         else .tok (fin.out ++ [(fin.cval, Prov.escaped)]) fin.rest)
      else
        (if fin.inquote ≠ 0 ∨ fin.escape ≠ 0 then .err
         else .tok fin.out fin.rest)

/-- Number of octal/hex digits already collected in a given escape
state: none before any digit position is reached (escape <= 1), and
escape - 2 (hex) or escape - 1 (octal) while collecting. -/
def escape_digits_collected (e b : Nat) : Nat :=
  if e ≤ 1 then 0 else if b = 16 then e - 2 else e - 1

/-- The default separator set " \f\n\r\t\v" of str_to_argv. -/
def default_seps : List Nat := [32, 12, 10, 13, 9, 11]

/-- Tokenize the whole buffer by iterated gettok, dropping provenance
tags: some list of tokens on success, none on malformed input.  Driven by
fuel; one token consumes at least one byte, so length + 1 fuel suffices. -/
def tokens_fuel (seps : List Nat) : Nat → List Nat → Option (List (List Nat))
  | 0, _ => none
  | fuel + 1, s =>
    match gettokT seps s with
    | .noTok _ => some []
    | .err => none
    | .tok out rest => (tokens_fuel seps fuel rest).map (fun ts => out.map Prod.fst :: ts)

/-- Tokenize the whole buffer by iterated gettok. -/
def tokens (seps s : List Nat) : Option (List (List Nat)) :=
  tokens_fuel seps (s.length + 1) s

/-- Draw one success/failure bit from the allocation oracle; an
exhausted oracle means every further allocation succeeds. -/
def takeBit : List Bool → Bool × List Bool
  | [] => (true, [])
  | b :: r => (b, r)

/-- errno value returned by str_to_argv on allocation failure. -/
def ENOMEM : Int := 12

/-- Observable result of str_to_argv: the returned error code, the
r_argc and r_argv outputs (written only on success), and the ledger of
allocation identifiers acquired during the call and not yet released. -/
structure ArgvResult where
  err : Int
  r_argc : Option Nat
  r_argv : Option (List (List Nat))
  live : List Nat
deriving DecidableEq

/-- The token loop of str_to_argv.  live starts as [origId, argvId]
(the strdup'ed working buffer and the malloc'ed pointer array); a grow
step (argc >= args - 2) releases the old array identifier and acquires a
fresh one (realloc), a failed grow or a gettok failure releases the
working buffer and the current array and returns only the error. -/
def build_loop_fuel (seps : List Nat) : Nat → List Bool → List Nat → Nat →
    List (List Nat) → List Nat → Nat → Nat → Nat → ArgvResult
  | 0, _, _, _, _, live, _, origId, argvId =>
      ⟨-1, none, none, (live.erase origId).erase argvId⟩
  | fuel + 1, oracle, s, args, acc, live, next, origId, argvId =>
    match gettokT seps s with
    | .noTok _ => ⟨0, some acc.length, some acc, live⟩
    | .err => ⟨-1, none, none, (live.erase origId).erase argvId⟩
    | .tok out rest =>
      if args - 2 ≤ acc.length then
        (match takeBit oracle with
         | (false, _) => ⟨ENOMEM, none, none, (live.erase origId).erase argvId⟩
         | (true, oracle2) =>
             build_loop_fuel seps fuel oracle2 rest (args + 10)
               (acc ++ [out.map Prod.fst]) ((live.erase argvId) ++ [next]) (next + 1)
               origId next)
      else
        build_loop_fuel seps fuel oracle rest args (acc ++ [out.map Prod.fst])
          live next origId argvId

/-- str_to_argv from utils.c: duplicate the input (allocation id 0),
default the separator set, allocate the 10-slot pointer array
(allocation id 1), and run the token loop.  A failed strdup returns
ENOMEM with nothing acquired; a failed array allocation releases the
duplicate and returns ENOMEM. -/
def str_to_argv (oracle : List Bool) (ins : List Nat)
    (sepsOpt : Option (List Nat)) : ArgvResult :=
  match takeBit oracle with
  | (false, _) => ⟨ENOMEM, none, none, []⟩
  | (true, o1) =>
    match takeBit o1 with
    | (false, _) => ⟨ENOMEM, none, none, List.erase [0] 0⟩
    | (true, o2) =>
        build_loop_fuel (sepsOpt.getD default_seps) (ins.length + 1) o2 ins 10 [] [0, 1]
          2 0 1

/-- Buffer positions reachable from s by taking whole tokens with
gettok. -/
inductive ScanReach (seps : List Nat) : List Nat → List Nat → Prop where
  | refl (s : List Nat) : ScanReach seps s s
  | step (s : List Nat) (out : List (Nat × Prov)) (rest s2 : List Nat) :
      gettokT seps s = .tok out rest → ScanReach seps rest s2 → ScanReach seps s s2

lemma process_char_backslash (seps : List Nat) (iq : Nat) (h : iq ≠ 92) :
    process_char seps 92 iq = .startEscape := by
  unfold process_char
  rw [if_neg (fun he => h he.symm)]
  simp

lemma process_char_emit_verbatim (seps : List Nat) (c iq : Nat)
    (h : process_char seps c iq = .emit Prov.verbatim) :
    iq = 0 ∧ is_sep_space c seps = false := by
  unfold process_char at h
  split_ifs at h with h1 h2 h3 h4 h5 <;> simp_all

lemma isodigit_isxdigit (c : Nat) (h : isodigit c = true) : isxdigit c = true := by
  unfold isodigit isdigit at h
  unfold isxdigit isdigit
  simp only [Bool.and_eq_true, decide_eq_true_eq] at h
  simp only [Bool.or_eq_true, Bool.and_eq_true, decide_eq_true_eq]
  exact Or.inl (Or.inl ⟨h.1.1.1, h.1.1.2⟩)

lemma gettok_loop_rest_length (seps : List Nat) :
    ∀ (s : List Nat) (iq e b cv : Nat) (out : List (Nat × Prov)),
      (gettok_loop seps s iq e b cv out).rest.length ≤ s.length := by
  intro s
  induction s with
  | nil => intro iq e b cv out; simp [gettok_loop]
  | cons c rest ih =>
    intro iq e b cv out
    simp only [gettok_loop]
    repeat' split
    all_goals first
      | exact le_trans (ih _ _ _ _ _) (Nat.le_succ _)
      | exact Nat.le_succ _
      | simp

lemma gettok_loop_cons_rest_length (seps : List Nat) (c : Nat) (rest : List Nat)
    (iq e b cv : Nat) (out : List (Nat × Prov)) (hc : c ≠ 0) :
    (gettok_loop seps (c :: rest) iq e b cv out).rest.length ≤ rest.length := by
  simp only [gettok_loop, if_neg hc]
  repeat' split
  all_goals first
    | exact gettok_loop_rest_length seps rest _ _ _ _ _
    | exact le_refl _

lemma skip_spaces_length (seps : List Nat) :
    ∀ s : List Nat, (skip_spaces s seps).length ≤ s.length := by
  intro s
  induction s with
  | nil => simp [skip_spaces]
  | cons c rest ih =>
    simp only [skip_spaces]
    split
    · exact le_trans ih (Nat.le_succ _)
    · exact le_refl _

lemma gettokT_tok_lt (seps s : List Nat) (out : List (Nat × Prov)) (rest : List Nat)
    (h : gettokT seps s = .tok out rest) : rest.length < s.length := by
  rcases hsk : skip_spaces s seps with _ | ⟨c, t2⟩ <;> simp only [gettokT, hsk] at h
  · exact absurd h (by simp)
  by_cases hc : c = 0
  · rw [if_pos hc] at h; exact absurd h (by simp)
  rw [if_neg hc] at h
  have hlen : (gettok_loop seps (c :: t2) 0 0 8 0 []).rest.length ≤ t2.length :=
    gettok_loop_cons_rest_length seps c t2 0 0 8 0 [] hc
  have hsl : (c :: t2).length ≤ s.length := by
    rw [← hsk]; exact skip_spaces_length seps s
  have hrest : rest = (gettok_loop seps (c :: t2) 0 0 8 0 []).rest := by
    split_ifs at h
    · exact ((GRes.tok.injEq _ _ _ _).mp h).2.symm
    · exact ((GRes.tok.injEq _ _ _ _).mp h).2.symm
  rw [hrest]
  have h1 : t2.length < (c :: t2).length := by simp
  exact lt_of_le_of_lt hlen (lt_of_lt_of_le h1 hsl)

lemma process_char_sepBreak (seps : List Nat) (c iq : Nat)
    (h : process_char seps c iq = .sepBreak) : iq = 0 := by
  unfold process_char at h
  split_ifs at h with h1 h2 h3 h4
  exact h4.1

lemma gettok_loop_inv (seps : List Nat) :
    ∀ (s : List Nat) (iq e b cv : Nat) (out : List (Nat × Prov)),
      (b = 8 ∨ b = 16) → e ≤ 3 →
      ((gettok_loop seps s iq e b cv out).base = 8 ∨
        (gettok_loop seps s iq e b cv out).base = 16) ∧
      (gettok_loop seps s iq e b cv out).escape ≤ 3 := by
  intro s
  induction s with
  | nil => intro iq e b cv out hb he; exact ⟨hb, he⟩
  | cons c rest ih =>
    intro iq e b cv out hb he
    simp only [gettok_loop]
    repeat' split
    all_goals first
      | exact ⟨hb, he⟩
      | exact ⟨hb, Nat.zero_le 3⟩
      | (refine ih _ _ _ _ _ (Or.inl rfl) ?_; omega)
      | (refine ih _ _ _ _ _ (Or.inr rfl) ?_; omega)
      | (refine ih _ _ _ _ _ hb ?_; omega)

lemma gettok_loop_eof (seps : List Nat) :
    ∀ (s : List Nat) (iq e b cv : Nat) (out : List (Nat × Prov)),
      (gettok_loop seps s iq e b cv out).inquote ≠ 0 ∨
        (gettok_loop seps s iq e b cv out).escape ≠ 0 →
      (gettok_loop seps s iq e b cv out).rest.headD 0 = 0 := by
  intro s
  induction s with
  | nil => intro iq e b cv out h; simp [gettok_loop]
  | cons c rest ih =>
    intro iq e b cv out
    simp only [gettok_loop]
    repeat' split
    all_goals intro h
    all_goals first
      | exact ih _ _ _ _ _ h
      | (rename_i hpc
         rcases h with h | h
         · exact absurd (process_char_sepBreak seps c _ hpc) h
         · exact absurd rfl h)
      | simp_all

lemma sepfree_append (seps : List Nat) (out more : List (Nat × Prov))
    (hout : ∀ p ∈ out, p.2 = Prov.verbatim → is_sep_space p.1 seps = false)
    (hmore : ∀ p ∈ more, p.2 = Prov.verbatim → is_sep_space p.1 seps = false) :
    ∀ p ∈ out ++ more, p.2 = Prov.verbatim → is_sep_space p.1 seps = false := by
  intro p hp
  rcases List.mem_append.mp hp with h | h
  · exact hout p h
  · exact hmore p h

lemma sepfree_emit (seps : List Nat) (c iq : Nat) (tag : Prov)
    (hpc : process_char seps c iq = .emit tag) :
    ∀ p ∈ [(c, tag)], p.2 = Prov.verbatim → is_sep_space p.1 seps = false := by
  intro p hp hv
  simp only [List.mem_singleton] at hp
  subst hp
  simp only at hv
  subst hv
  exact (process_char_emit_verbatim seps c iq hpc).2

lemma gettok_loop_verbatim (seps : List Nat) :
    ∀ (s : List Nat) (iq e b cv : Nat) (out : List (Nat × Prov)),
      (∀ p ∈ out, p.2 = Prov.verbatim → is_sep_space p.1 seps = false) →
      ∀ p ∈ (gettok_loop seps s iq e b cv out).out, p.2 = Prov.verbatim →
        is_sep_space p.1 seps = false := by
  intro s
  induction s with
  | nil => intro iq e b cv out hout; exact hout
  | cons c rest ih =>
    intro iq e b cv out hout
    simp only [gettok_loop]
    by_cases h0 : c = 0
    · rw [if_pos h0]; exact hout
    rw [if_neg h0]
    by_cases h1 : e = 1
    · rw [if_pos h1]
      by_cases hod : isodigit c = true
      · rw [if_pos hod]; exact ih _ _ _ _ _ hout
      rw [if_neg hod]
      by_cases hx : c = 120
      · rw [if_pos hx]; exact ih _ _ _ _ _ hout
      · rw [if_neg hx]
        exact ih _ _ _ _ _ (sepfree_append _ _ _ hout (by simp))
    rw [if_neg h1]
    by_cases h2 : 2 ≤ e
    · rw [if_pos h2]
      by_cases hd : (b = 16 ∧ isxdigit c = true) ∨ isodigit c = true
      · rw [if_pos hd]
        by_cases h3 : 3 ≤ e
        · rw [if_pos h3]
          exact ih _ _ _ _ _ (sepfree_append _ _ _ hout (by simp))
        · rw [if_neg h3]; exact ih _ _ _ _ _ hout
      · rw [if_neg hd]
        rcases hpc : process_char seps c iq with q | _ | _ | tag <;> simp only [hpc]
        · exact ih _ _ _ _ _ (sepfree_append _ _ _ hout (by simp))
        · exact ih _ _ _ _ _ (sepfree_append _ _ _ hout (by simp))
        · exact sepfree_append _ _ _ hout (by simp)
        · refine ih _ _ _ _ _ (sepfree_append _ _ _ hout ?_)
          intro p hp hv
          rcases List.mem_cons.mp hp with h | h
          · subst h; simp at hv
          · exact sepfree_emit seps c iq tag hpc p h hv
    · rw [if_neg h2]
      rcases hpc : process_char seps c iq with q | _ | _ | tag <;> simp only [hpc]
      · exact ih _ _ _ _ _ hout
      · exact ih _ _ _ _ _ hout
      · exact hout
      · exact ih _ _ _ _ _ (sepfree_append _ _ _ hout (sepfree_emit seps c iq tag hpc))

lemma gettok_loop_interrupt (seps : List Nat) (c : Nat) (rest : List Nat)
    (iq e b cv : Nat) (out : List (Nat × Prov)) (hc : c ≠ 0) (he : 2 ≤ e)
    (hd : ¬((b = 16 ∧ isxdigit c = true) ∨ isodigit c = true)) :
    gettok_loop seps (c :: rest) iq e b cv out =
      gettok_loop seps (c :: rest) iq 0 b cv (out ++ [(cv, Prov.escaped)]) := by
  have he1 : e ≠ 1 := by omega
  rcases hpc : process_char seps c iq with q | _ | _ | tag <;>
    simp [gettok_loop, hpc, if_neg hc, if_neg he1, if_pos he, if_neg hd]

lemma tokens_fuel_eq (seps : List Nat) :
    ∀ (f1 f2 : Nat) (s : List Nat), s.length < f1 → s.length < f2 →
      tokens_fuel seps f1 s = tokens_fuel seps f2 s := by
  intro f1
  induction f1 with
  | zero => intro f2 s h1 h2; exact absurd h1 (Nat.not_lt_zero _)
  | succ f ih =>
    intro f2 s h1 h2
    rcases f2 with _ | f2b
    · exact absurd h2 (Nat.not_lt_zero _)
    simp only [tokens_fuel]
    rcases hg : gettokT seps s with r | ⟨o, r⟩ | _ <;> simp only [hg]
    have hlt := gettokT_tok_lt seps s o r hg
    rw [ih f2b r (by omega) (by omega)]

lemma tokens_unfold (seps s : List Nat) :
    tokens seps s = (match gettokT seps s with
      | GRes.noTok _ => some []
      | GRes.err => none
      | GRes.tok out rest => (tokens seps rest).map (fun ts => out.map Prod.fst :: ts)) := by
  show tokens_fuel seps (s.length + 1) s = _
  rcases hg : gettokT seps s with r | ⟨o, r⟩ | _ <;> simp only [tokens_fuel, hg]
  have hlt := gettokT_tok_lt seps s o r hg
  have hdef : tokens seps r = tokens_fuel seps (r.length + 1) r := rfl
  rw [hdef, tokens_fuel_eq seps s.length (r.length + 1) r (by omega) (by omega)]

lemma tokens_none_of_reach (seps : List Nat) :
    ∀ s s2 : List Nat, ScanReach seps s s2 → gettokT seps s2 = .err →
      tokens seps s = none := by
  intro s s2 h
  induction h with
  | refl s => intro he; rw [tokens_unfold, he]
  | step s out rest s2 hg hr ih =>
    intro he
    rw [tokens_unfold, hg]
    show (tokens seps rest).map (fun ts => out.map Prod.fst :: ts) = none
    rw [ih he]
    rfl

lemma tokens_none_reach (seps : List Nat) :
    ∀ (n : Nat) (s : List Nat), s.length ≤ n → tokens seps s = none →
      ∃ s2, ScanReach seps s s2 ∧ gettokT seps s2 = .err := by
  intro n
  induction n with
  | zero =>
    intro s hl ht
    have hs : s = [] := List.eq_nil_of_length_eq_zero (Nat.le_zero.mp hl)
    subst hs
    rw [tokens_unfold] at ht
    simp [gettokT, skip_spaces] at ht
  | succ n ih =>
    intro s hl ht
    rw [tokens_unfold] at ht
    rcases hg : gettokT seps s with r | ⟨o, r⟩ | _
    · rw [hg] at ht; simp at ht
    · rw [hg] at ht
      have ht2 : (tokens seps r).map (fun ts => o.map Prod.fst :: ts) = none := ht
      have hr : tokens seps r = none := by
        rcases htr : tokens seps r with _ | v
        · rfl
        · rw [htr] at ht2; simp at ht2
      have hlt := gettokT_tok_lt seps s o r hg
      rcases ih r (by omega) hr with ⟨s2, hreach, herr⟩
      exact ⟨s2, ScanReach.step s o r s2 hg hreach, herr⟩
    · exact ⟨s, ScanReach.refl s, hg⟩

lemma erase_pair (o a : Nat) :
    ((([o, a] : List Nat).erase o).erase a) = [] := by
  simp [List.erase_cons]

lemma erase_pair_snd (o a : Nat) (h : o ≠ a) :
    (([o, a] : List Nat).erase a) = [o] := by
  simp [List.erase_cons, h]

lemma build_loop_err_iff (seps : List Nat) :
    ∀ (fuel : Nat) (s : List Nat) (args : Nat) (acc : List (List Nat))
      (live : List Nat) (next origId argvId : Nat), s.length < fuel →
      ((build_loop_fuel seps fuel [] s args acc live next origId argvId).err = -1 ↔
        tokens seps s = none) := by
  intro fuel
  induction fuel with
  | zero => intro s args acc live next o a h; exact absurd h (Nat.not_lt_zero _)
  | succ f ih =>
    intro s args acc live next o a h
    rw [tokens_unfold]
    simp only [build_loop_fuel]
    rcases hg : gettokT seps s with r | ⟨ot, r⟩ | _ <;> simp only [hg]
    · simp [ENOMEM]
    · have hlt := gettokT_tok_lt seps s ot r hg
      have hmap : ((tokens seps r).map (fun ts => ot.map Prod.fst :: ts) = none) ↔
          tokens seps r = none := by
        rcases tokens seps r with _ | v <;> simp
      by_cases hgrow : args - 2 ≤ acc.length
      · rw [if_pos hgrow]
        simp only [takeBit]
        rw [ih r (args + 10) (acc ++ [ot.map Prod.fst]) ((live.erase a) ++ [next])
          (next + 1) o next (by omega)]
        exact hmap.symm
      · rw [if_neg hgrow]
        rw [ih r args (acc ++ [ot.map Prod.fst]) live next o a (by omega)]
        exact hmap.symm

lemma build_loop_all_or_nothing (seps : List Nat) :
    ∀ (fuel : Nat) (oracle : List Bool) (s : List Nat) (args : Nat)
      (acc : List (List Nat)) (next origId argvId : Nat),
      origId < argvId → argvId < next →
      (build_loop_fuel seps fuel oracle s args acc [origId, argvId] next origId
          argvId).err ≠ 0 →
      (build_loop_fuel seps fuel oracle s args acc [origId, argvId] next origId
          argvId).live = [] ∧
      (build_loop_fuel seps fuel oracle s args acc [origId, argvId] next origId
          argvId).r_argc = none ∧
      (build_loop_fuel seps fuel oracle s args acc [origId, argvId] next origId
          argvId).r_argv = none := by
  intro fuel
  induction fuel with
  | zero =>
    intro oracle s args acc next o a ho ha hne
    exact ⟨erase_pair o a, rfl, rfl⟩
  | succ f ih =>
    intro oracle s args acc next o a ho ha
    simp only [build_loop_fuel]
    rcases hg : gettokT seps s with r | ⟨ot, r⟩ | _ <;> simp only [hg]
    · intro hne; exact absurd rfl hne
    · by_cases hgrow : args - 2 ≤ acc.length
      · rw [if_pos hgrow]
        have hlive : (([o, a] : List Nat).erase a) ++ [next] = [o, next] := by
          rw [erase_pair_snd o a (Nat.ne_of_lt ho)]
          rfl
        rcases oracle with _ | ⟨bit, oracle2⟩
        · simp only [takeBit, hlive]
          exact ih [] r (args + 10) (acc ++ [ot.map Prod.fst]) (next + 1) o next
            (lt_trans ho ha) (Nat.lt_succ_self next)
        · rcases bit
          · simp only [takeBit]
            intro hne
            exact ⟨erase_pair o a, by trivial, by trivial⟩
          · simp only [takeBit, hlive]
            exact ih oracle2 r (args + 10) (acc ++ [ot.map Prod.fst]) (next + 1) o next
              (lt_trans ho ha) (Nat.lt_succ_self next)
      · rw [if_neg hgrow]
        exact ih oracle r args (acc ++ [ot.map Prod.fst]) next o a ho ha
    · intro hne
      exact ⟨erase_pair o a, by trivial, by trivial⟩

lemma str_to_argv_err_iff (ins : List Nat) (sepsOpt : Option (List Nat)) :
    (str_to_argv [] ins sepsOpt).err = -1 ↔
      tokens (sepsOpt.getD default_seps) ins = none := by
  simp only [str_to_argv, takeBit]
  exact build_loop_err_iff (sepsOpt.getD default_seps) (ins.length + 1) ins 10 [] [0, 1]
    2 0 1 (Nat.lt_succ_self _)

lemma gettokT_err_iff (seps s : List Nat) :
    gettokT seps s = .err ↔
      ∃ c t2, skip_spaces s seps = c :: t2 ∧ c ≠ 0 ∧
        (gettok_loop seps (c :: t2) 0 0 8 0 []).rest.headD 0 = 0 ∧
        ((gettok_loop seps (c :: t2) 0 0 8 0 []).inquote ≠ 0 ∨
          ((gettok_loop seps (c :: t2) 0 0 8 0 []).escape ≠ 0 ∧
            escape_digits_collected (gettok_loop seps (c :: t2) 0 0 8 0 []).escape
              (gettok_loop seps (c :: t2) 0 0 8 0 []).base = 0)) := by
  rcases hsk : skip_spaces s seps with _ | ⟨c, t2⟩
  · simp only [gettokT, hsk]
    constructor
    · intro h; exact absurd h (by simp)
    · rintro ⟨c, t2, heq, _⟩
      exact absurd heq (by simp)
  simp only [gettokT, hsk]
  by_cases hc : c = 0
  · rw [if_pos hc]
    constructor
    · intro h; exact absurd h (by simp)
    · rintro ⟨c2, t3, heq, hc2, _⟩
      rcases List.cons.injEq c t2 c2 t3 ▸ heq with ⟨h1, h2⟩
      exact absurd (h1 ▸ hc) hc2
  rw [if_neg hc]
  have hinv := gettok_loop_inv seps (c :: t2) 0 0 8 0 [] (Or.inl rfl) (by omega)
  constructor
  · intro h
    split_ifs at h with hF hq hq2
    · refine ⟨c, t2, rfl, hc, gettok_loop_eof seps (c :: t2) 0 0 8 0 [] (Or.inl hq), Or.inl hq⟩
    · refine ⟨c, t2, rfl, hc, gettok_loop_eof seps (c :: t2) 0 0 8 0 [] hq2, ?_⟩
      rcases hq2 with hq2 | hq2
      · exact Or.inl hq2
      · refine Or.inr ⟨hq2, ?_⟩
        rcases hinv with ⟨hb8 | hb16, he3⟩
        · push_neg at hF
          have h1 : (gettok_loop seps (c :: t2) 0 0 8 0 []).escape ≤ 1 := by
            have := hF.1 hb8
            omega
          simp [escape_digits_collected, h1]
        · push_neg at hF
          have h2 := hF.2 hb16
          rcases le_or_lt (gettok_loop seps (c :: t2) 0 0 8 0 []).escape 1 with h1 | h1
          · simp [escape_digits_collected, h1]
          · have h3 : (gettok_loop seps (c :: t2) 0 0 8 0 []).escape = 2 := by omega
            simp [escape_digits_collected, hb16, h3]
  · rintro ⟨c2, t3, heq, hc2, heof, hbad⟩
    rcases List.cons.injEq c t2 c2 t3 ▸ heq with ⟨h1, h2⟩
    subst h1
    subst h2
    split_ifs with hF hq hq2
    · rfl
    · exfalso
      rcases hbad with hbad | hbad
      · exact hq hbad
      · rcases hinv with ⟨hb8 | hb16, he3⟩
        · rcases hF with ⟨_, hF⟩ | ⟨hF, _⟩
          · have hne : ¬((gettok_loop seps (c :: t2) 0 0 8 0 []).escape ≤ 1) := by omega
            have hb16n : ¬((gettok_loop seps (c :: t2) 0 0 8 0 []).base = 16) := by
              rw [hb8]; norm_num
            simp only [escape_digits_collected, if_neg hne, if_neg hb16n] at hbad
            omega
          · rw [hb8] at hF
            exact absurd hF (by norm_num)
        · rcases hF with ⟨hF, _⟩ | ⟨_, hF⟩
          · rw [hb16] at hF
            exact absurd hF (by norm_num)
          · have hne : ¬((gettok_loop seps (c :: t2) 0 0 8 0 []).escape ≤ 1) := by omega
            simp only [escape_digits_collected, if_neg hne, if_pos hb16] at hbad
            omega
    · rfl
    · exfalso
      push_neg at hq2
      rcases hbad with hbad | hbad
      · exact hbad hq2.1
      · exact hbad.1 hq2.2

/-- C1: the claim says gettok's hex-escape accumulation computes
value = value*16 + digit with the letters a-f/A-F denoting 10 to 15.
The code instead computes *p - 'A' for uppercase and *p - 'a' for
everything that is not an octal digit, without adding 10, so the input
backslash-x-A produces the single byte 0 (the claim requires 10), and
backslash-x-8 falls into the *p - 'a' branch and produces the byte 215
(the claim requires 8).  This theorem records the code's actual result
at those inputs. -/
theorem c1_hex_letter_escape_eval :
    str_to_argv [] [92, 120, 65] none = ⟨0, some 1, some [[0]], [0, 1]⟩ ∧
    str_to_argv [] [92, 120, 56] none = ⟨0, some 1, some [[215]], [0, 1]⟩ := by
  exact ⟨rfl, rfl⟩

/-- C2: str_to_argv fails with the malformed-input error (-1), with no
outputs, exactly when whole-buffer tokenization fails; tokenization
fails exactly when gettok fails at some reachable scan position; and
gettok fails exactly when its scan loop stops at the end of the buffer
(a NUL position) while a quote is still open, or while an escape is
still pending with zero octal/hex digits collected (a trailing
backslash, or a trailing backslash-x with no hex digit). -/
theorem c2_malformed_input_characterization :
    (∀ (ins : List Nat) (sepsOpt : Option (List Nat)),
      (str_to_argv [] ins sepsOpt).err = -1 ↔
        tokens (sepsOpt.getD default_seps) ins = none) ∧
    (∀ seps s : List Nat, tokens seps s = none ↔
      ∃ s2, ScanReach seps s s2 ∧ gettokT seps s2 = GRes.err) ∧
    (∀ seps s : List Nat, gettokT seps s = GRes.err ↔
      ∃ c t2, skip_spaces s seps = c :: t2 ∧ c ≠ 0 ∧
        (gettok_loop seps (c :: t2) 0 0 8 0 []).rest.headD 0 = 0 ∧
        ((gettok_loop seps (c :: t2) 0 0 8 0 []).inquote ≠ 0 ∨
          ((gettok_loop seps (c :: t2) 0 0 8 0 []).escape ≠ 0 ∧
            escape_digits_collected (gettok_loop seps (c :: t2) 0 0 8 0 []).escape
              (gettok_loop seps (c :: t2) 0 0 8 0 []).base = 0))) := by
  refine ⟨str_to_argv_err_iff, fun seps s => ?_, gettokT_err_iff⟩
  constructor
  · exact tokens_none_reach seps s.length s (le_refl _)
  · rintro ⟨s2, h1, h2⟩
    exact tokens_none_of_reach seps s s2 h1 h2

/-- C3: str_to_argv is all-or-nothing: whenever it returns a nonzero
error code (allocation failure or malformed input), every allocation
acquired during the call has been released (the live ledger is empty)
and the r_argc/r_argv outputs are not written. -/
theorem c3_str_to_argv_all_or_nothing (oracle : List Bool) (ins : List Nat)
    (sepsOpt : Option (List Nat))
    (h : (str_to_argv oracle ins sepsOpt).err ≠ 0) :
    (str_to_argv oracle ins sepsOpt).live = [] ∧
    (str_to_argv oracle ins sepsOpt).r_argc = none ∧
    (str_to_argv oracle ins sepsOpt).r_argv = none := by
  revert h
  simp only [str_to_argv]
  rcases oracle with _ | ⟨b1, o1⟩
  · simp only [takeBit]
    exact build_loop_all_or_nothing _ _ _ _ _ _ _ _ _ (by omega) (by omega)
  rcases b1
  · simp only [takeBit]
    intro h
    exact ⟨by trivial, by trivial, by trivial⟩
  · simp only [takeBit]
    rcases o1 with _ | ⟨b2, o2⟩
    · simp only [takeBit]
      exact build_loop_all_or_nothing _ _ _ _ _ _ _ _ _ (by omega) (by omega)
    rcases b2
    · simp only [takeBit]
      intro h
      exact ⟨by simp, by trivial, by trivial⟩
    · simp only [takeBit]
      exact build_loop_all_or_nothing _ _ _ _ _ _ _ _ _ (by omega) (by omega)

/-- Witness for C3: with the first allocation failing on input a, the
call returns a nonzero error and the conclusion holds at that input. -/
theorem c3_str_to_argv_all_or_nothing_w :
    (str_to_argv [false] [97] none).err ≠ 0 ∧
    ((str_to_argv [false] [97] none).live = [] ∧
     (str_to_argv [false] [97] none).r_argc = none ∧
     (str_to_argv [false] [97] none).r_argv = none) :=
  ⟨by decide, c3_str_to_argv_all_or_nothing [false] [97] none (by decide)⟩

/-- C4: digit-collection interruption: while collecting octal or hex
escape digits (escape at least 2), a character of the wrong digit class
causes the accumulated value to be flushed as exactly one escaped output
byte, after which the loop continues at that same character in normal
state (escape 0) with all other state unchanged — the interrupting
character is not consumed by the escape and is reprocessed under the
normal quote/escape/separator/copy rules. -/
theorem c4_digit_collection_interruption (seps : List Nat) (c : Nat)
    (rest : List Nat) (iq e b cv : Nat) (out : List (Nat × Prov))
    (hc : c ≠ 0) (he : 2 ≤ e)
    (hd : ¬((b = 16 ∧ isxdigit c = true) ∨ isodigit c = true)) :
    gettok_loop seps (c :: rest) iq e b cv out =
      gettok_loop seps (c :: rest) iq 0 b cv (out ++ [(cv, Prov.escaped)]) :=
  gettok_loop_interrupt seps c rest iq e b cv out hc he hd

/-- Witness for C4: the non-hex character g interrupting hex collection
with accumulated value 0. -/
theorem c4_digit_collection_interruption_w :
    (103 : Nat) ≠ 0 ∧ (2 : Nat) ≤ 2 ∧
    ¬(((16 : Nat) = 16 ∧ isxdigit 103 = true) ∨ isodigit 103 = true) ∧
    gettok_loop default_seps [103] 0 2 16 0 [] =
      gettok_loop default_seps [103] 0 0 16 0 ([] ++ [(0, Prov.escaped)]) :=
  ⟨by decide, by decide, by decide,
    c4_digit_collection_interruption default_seps 103 [] 0 2 16 0 [] (by decide)
      (by decide) (by decide)⟩

/-- C5: when the scan loop finishes with at least one octal/hex digit
collected and fewer than the target count (3 octal, 2 hex), and no quote
is open, gettok flushes the accumulated value as one final escaped
output byte and finalizes the token normally (success, not an error). -/
theorem c5_eof_mid_collection_flush (seps s : List Nat) (c : Nat) (t2 : List Nat)
    (hsk : skip_spaces s seps = c :: t2) (hc : c ≠ 0)
    (hq : (gettok_loop seps (c :: t2) 0 0 8 0 []).inquote = 0)
    (h1 : 1 ≤ escape_digits_collected (gettok_loop seps (c :: t2) 0 0 8 0 []).escape
        (gettok_loop seps (c :: t2) 0 0 8 0 []).base)
    (h2 : escape_digits_collected (gettok_loop seps (c :: t2) 0 0 8 0 []).escape
        (gettok_loop seps (c :: t2) 0 0 8 0 []).base <
        (if (gettok_loop seps (c :: t2) 0 0 8 0 []).base = 16 then 2 else 3)) :
    gettokT seps s = GRes.tok
      ((gettok_loop seps (c :: t2) 0 0 8 0 []).out ++
        [((gettok_loop seps (c :: t2) 0 0 8 0 []).cval, Prov.escaped)])
      (gettok_loop seps (c :: t2) 0 0 8 0 []).rest := by
  have hinv := gettok_loop_inv seps (c :: t2) 0 0 8 0 [] (Or.inl rfl) (by omega)
  simp only [gettokT, hsk, if_neg hc]
  have hF : (gettok_loop seps (c :: t2) 0 0 8 0 []).base = 8 ∧
      1 < (gettok_loop seps (c :: t2) 0 0 8 0 []).escape ∨
      (gettok_loop seps (c :: t2) 0 0 8 0 []).base = 16 ∧
      2 < (gettok_loop seps (c :: t2) 0 0 8 0 []).escape := by
    rcases hinv with ⟨hb8 | hb16, he3⟩
    · refine Or.inl ⟨hb8, ?_⟩
      by_cases hle : (gettok_loop seps (c :: t2) 0 0 8 0 []).escape ≤ 1
      · simp only [escape_digits_collected, if_pos hle] at h1
        omega
      · omega
    · refine Or.inr ⟨hb16, ?_⟩
      by_cases hle : (gettok_loop seps (c :: t2) 0 0 8 0 []).escape ≤ 1
      · simp only [escape_digits_collected, if_pos hle] at h1
        omega
      · simp only [escape_digits_collected, if_neg hle, if_pos hb16] at h1
        omega
  rw [if_pos hF, if_neg (by simp [hq])]

/-- Witness for C5: a trailing octal escape with one digit, backslash-4,
flushes the value 4 as the final byte of a successful token. -/
theorem c5_eof_mid_collection_flush_w :
    skip_spaces [92, 52] default_seps = 92 :: [52] ∧
    gettokT default_seps [92, 52] = GRes.tok
      ((gettok_loop default_seps (92 :: [52]) 0 0 8 0 []).out ++
        [((gettok_loop default_seps (92 :: [52]) 0 0 8 0 []).cval, Prov.escaped)])
      (gettok_loop default_seps (92 :: [52]) 0 0 8 0 []).rest :=
  ⟨by decide, c5_eof_mid_collection_flush default_seps [92, 52] 92 [52] (by decide)
    (by decide) (by decide) (by decide) (by decide)⟩

/-- C6: a separator character preceded by a backslash is not a
delimiter: parsing a backslash space b with the default separator set
succeeds and yields exactly one token with the bytes a, space, b. -/
theorem c6_escaped_separator_not_delimiter :
    str_to_argv [] [97, 92, 32, 98] none = ⟨0, some 1, some [[97, 32, 98]], [0, 1]⟩ := by
  rfl

/-- C7: separator-provenance invariant: in every token produced by a
successful gettok, any byte lying in the separator set was written
inside a quote region or by escape processing, never by the verbatim
copy rule for unquoted characters. -/
theorem c7_token_separator_provenance (seps s : List Nat)
    (out : List (Nat × Prov)) (rest : List Nat)
    (h : gettokT seps s = GRes.tok out rest) (b : Nat) (pr : Prov)
    (hmem : (b, pr) ∈ out) (hsep : is_sep_space b seps = true) :
    pr = Prov.quoted ∨ pr = Prov.escaped := by
  have hout : ∀ p ∈ out, p.2 = Prov.verbatim → is_sep_space p.1 seps = false := by
    rcases hsk : skip_spaces s seps with _ | ⟨c, t2⟩ <;> simp only [gettokT, hsk] at h
    · exact absurd h (by simp)
    by_cases hc : c = 0
    · rw [if_pos hc] at h
      exact absurd h (by simp)
    rw [if_neg hc] at h
    have hbase := gettok_loop_verbatim seps (c :: t2) 0 0 8 0 []
      (by intro p hp; simp at hp)
    split_ifs at h with h1 h2
    · have heq := ((GRes.tok.injEq _ _ _ _).mp h).1
      intro p hp hv
      rw [← heq] at hp
      rcases List.mem_append.mp hp with hp2 | hp2
      · exact hbase p hp2 hv
      · simp only [List.mem_singleton] at hp2
        subst hp2
        simp at hv
    · have heq := ((GRes.tok.injEq _ _ _ _).mp h).1
      intro p hp hv
      rw [← heq] at hp
      exact hbase p hp hv
  have hv := hout (b, pr) hmem
  cases pr
  · exact absurd hsep (by simp [hv rfl])
  · exact Or.inl rfl
  · exact Or.inr rfl

/-- Witness for C7: the token of backslash-040 holds the separator byte
32 with provenance escaped. -/
theorem c7_token_separator_provenance_w :
    gettokT default_seps [92, 48, 52, 48] = GRes.tok [(32, Prov.escaped)] [] ∧
    (Prov.escaped = Prov.quoted ∨ Prov.escaped = Prov.escaped) :=
  ⟨by decide, c7_token_separator_provenance default_seps [92, 48, 52, 48]
    [(32, Prov.escaped)] [] (by decide) 32 Prov.escaped (by decide) (by decide)⟩

/-- C8: parsing the input backslash 1 0 1 with the default separators
succeeds and yields exactly one token consisting of the single byte 65:
all three octal digits are consumed by the escape. -/
theorem c8_octal_escape_three_digits :
    str_to_argv [] [92, 49, 48, 49] none = ⟨0, some 1, some [[65]], [0, 1]⟩ := by
  rfl

/-- C9: inside a single- or double-quoted region a backslash still
begins an escape sequence exactly as outside quotes: in normal state the
loop maps a backslash to escape state 1 for every quoting context other
than 92 itself (the quoting contexts are 0, 39 and 34, so quoting never
suppresses it); concretely, the quoted input double-quote a backslash n
b double-quote yields one token a, newline, b. -/
theorem c9_backslash_inside_quotes :
    (∀ (seps rest2 : List Nat) (iq b cv : Nat) (out : List (Nat × Prov)), iq ≠ 92 →
      gettok_loop seps (92 :: rest2) iq 0 b cv out =
        gettok_loop seps rest2 iq 1 b cv out) ∧
    str_to_argv [] [34, 97, 92, 110, 98, 34] none =
      ⟨0, some 1, some [[97, 10, 98]], [0, 1]⟩ := by
  constructor
  · intro seps rest2 iq b cv out hiq
    simp [gettok_loop, process_char_backslash seps iq hiq]
  · rfl

/-- Witness for C9: the backslash step inside an open double quote
(inquote 34). -/
theorem c9_backslash_inside_quotes_w :
    gettok_loop default_seps [92] 34 0 8 0 [] =
      gettok_loop default_seps [] 34 1 8 0 [] :=
  c9_backslash_inside_quotes.1 default_seps [] 34 8 0 [] (by decide)

/-- C10: a hex escape introducer backslash-x immediately followed by a
non-hex-digit character before the end of the buffer is not an error:
the x step enters hex collection with accumulated value 0, a following
non-hex character flushes that 0 as one escaped output byte (a NUL in
the token) and is itself reprocessed in normal state; concretely
backslash x g parses successfully to one token with bytes 0, g. -/
theorem c10_hex_no_digit_flush_zero :
    (∀ (seps rest2 : List Nat) (iq b cv : Nat) (out : List (Nat × Prov)),
      gettok_loop seps (120 :: rest2) iq 1 b cv out =
        gettok_loop seps rest2 iq 2 16 0 out) ∧
    (∀ (seps : List Nat) (c : Nat) (rest2 : List Nat) (iq : Nat)
      (out : List (Nat × Prov)), c ≠ 0 → isxdigit c = false →
      gettok_loop seps (c :: rest2) iq 2 16 0 out =
        gettok_loop seps (c :: rest2) iq 0 16 0 (out ++ [(0, Prov.escaped)])) ∧
    str_to_argv [] [92, 120, 103] none = ⟨0, some 1, some [[0, 103]], [0, 1]⟩ := by
  refine ⟨?_, ?_, rfl⟩
  · intro seps rest2 iq b cv out
    rfl
  · intro seps c rest2 iq out hc hx
    refine gettok_loop_interrupt seps c rest2 iq 2 16 0 out hc (le_refl 2) ?_
    intro hd
    rcases hd with ⟨_, hd⟩ | hd
    · rw [hd] at hx
      simp at hx
    · rw [isodigit_isxdigit c hd] at hx
      simp at hx

/-- Witness for C10: the g step flushing the zero byte at a concrete
state. -/
theorem c10_hex_no_digit_flush_zero_w :
    gettok_loop default_seps [103] 0 2 16 0 [] =
      gettok_loop default_seps [103] 0 0 16 0 ([] ++ [(0, Prov.escaped)]) :=
  c10_hex_no_digit_flush_zero.2.1 default_seps 103 [] 0 [] (by decide) (by decide)

end Ser2net
